import Mathlib

/-!  Verification of unlazer (app.ts): path resolution and transfer execution.

The TypeScript source is embedded shallowly:
* Strings are Lean strings (lists of characters).  path.join and
  path.normalize are modelled after the forward-slash (POSIX) branch of the
  path library; the algorithms are separator-generic.
* The sqlite query results are taken as the data source: one list of joined
  BeatmapSetInfo/BeatmapMetadata rows (the folder query) and one list of
  joined BeatmapSetFileInfo/FileInfo rows (the file query).
* Runtime TypeError exceptions (path.join applied to an undefined argument)
  appear as Except.error and abort the traversal, as a thrown exception does.
* The filesystem is a finite map from paths to entries, threaded explicitly
  through the transfer loop; directories are implicit (ensureDirSync and
  ensureDir never fail in this model).
-/

namespace Unlazer

/-- Whitespace characters removed by the JS String trim method
(ASCII whitespace plus the common Unicode members). -/
def jsWs (c : Char) : Bool :=
  c == ' ' || c == '\t' || c == '\n' || c == '\r' || c == '\x0b' || c == '\x0c' ||
  c == '\u00A0' || c == '\u2028' || c == '\u2029' || c == '\uFEFF'

/-- Leading-whitespace removal, as in the JS String trim method. -/
def trimLeftC (l : List Char) : List Char := l.dropWhile jsWs

/-- Trailing-whitespace removal. -/
def trimRightC (l : List Char) : List Char := (l.reverse.dropWhile jsWs).reverse

/-- Model of the JS String trim method. -/
def jsTrim (s : String) : String := ⟨trimRightC (trimLeftC s.data)⟩

/-- Split a character list at '/' separators; segments may be empty. -/
def splitSeg : List Char → List (List Char)
  | [] => [[]]
  | c :: rest =>
    if c = '/' then [] :: splitSeg rest
    else
      match splitSeg rest with
      | [] => [[c]]
      | s :: ss => (c :: s) :: ss

/-- Join segments with '/' separators. -/
def joinSeg : List (List Char) → List Char
  | [] => []
  | [s] => s
  | s :: rest => s ++ '/' :: joinSeg rest

/-- One step of the segment scan inside path.normalize: empty and "."
segments are dropped, ".." pops the previous segment when there is one that
is not itself "..", and otherwise stays (relative paths) or is dropped
(absolute paths). -/
def stepSeg (allowAboveRoot : Bool) (acc : List (List Char)) (s : List Char) :
    List (List Char) :=
  if s = [] ∨ s = ['.'] then acc
  else if s = ['.', '.'] then
    match acc.getLast? with
    | none => if allowAboveRoot then [['.', '.']] else []
    | some last =>
      if last = ['.', '.'] then
        (if allowAboveRoot then acc ++ [['.', '.']] else acc)
      else acc.dropLast
  else acc ++ [s]

/-- The segment pass of path.normalize: resolve "." and ".." and collapse
repeated separators. -/
def procSegs (allowAboveRoot : Bool) (segs : List (List Char)) : List (List Char) :=
  segs.foldl (stepSeg allowAboveRoot) []

/-- The tail of path.normalize, assembling the output string from the
absolute/trailing-separator flags and the processed segment join. -/
def normAssemble (isAbs trailing : Bool) (t0 : List Char) : String :=
  let t1 := if t0.isEmpty && !isAbs then ['.'] else t0
  let t2 := if !t1.isEmpty && trailing then t1 ++ ['/'] else t1
  if isAbs then ⟨'/' :: t2⟩ else ⟨t2⟩

/-- Model of path.normalize (forward-slash branch of the path library). -/
def normalize (p : String) : String :=
  if p.data.isEmpty then "."
  else
    normAssemble (p.data.head? == some '/') (p.data.getLast? == some '/')
      (joinSeg (procSegs (!(p.data.head? == some '/')) (splitSeg p.data)))

/-- Model of path.join: empty arguments are skipped, the rest are joined
with '/' and the result is normalized. -/
def pjoin (paths : List String) : String :=
  let kept := paths.filter (fun p => !p.data.isEmpty)
  if kept.isEmpty then "." else normalize ⟨joinSeg (kept.map String.data)⟩

/-- A row of the folder query (BeatmapSetInfo joined with BeatmapMetadata). -/
structure SetRow where
  ID : Int
  onlineID : Option Int
  artist : Option String
  author : Option String
  title : Option String

/-- A row of the file query (BeatmapSetFileInfo joined with FileInfo). -/
structure FileRow where
  setID : Int
  filename : String
  hash : String

/-- The relational data source, taken at the two query results that
getFilePaths consumes. -/
structure Db where
  sets : List SetRow
  files : List FileRow

/-- The null check nc for text columns: null becomes the empty string. -/
def ncStr : Option String → String
  | none => ""
  | some s => s

/-- The null check nc for the integer OnlineBeatmapSetID column; a present
value is rendered in decimal, as JS template interpolation does. -/
def ncInt : Option Int → String
  | none => ""
  | some n => toString n

/-- The untrimmed folder-name template string of getFilePaths, with the
interpolated null checks.  The author bracket literals are always present. -/
def folderTemplate (r : SetRow) : String :=
  ncInt r.onlineID ++ " " ++ ncStr r.artist ++ " - " ++
    ncStr r.title ++ " [" ++ ncStr r.author ++ "]"

/-- The folder name computed for one folder-query row:
path.normalize of the trimmed template. -/
def folderNameOf (r : SetRow) : String :=
  normalize (jsTrim (folderTemplate r))

/-- The folderNames table: one assignment per folder-query row, later rows
overwriting earlier ones; looking up a missing ID yields none (undefined). -/
def folderLookup (db : Db) (id : Int) : Option String :=
  List.lookup id ((db.sets.map fun r => (r.ID, folderNameOf r)).reverse)

/-- hashToFilePath: join(hash[0], hash.substring(0, 2), hash).  For the
empty string, hash[0] is undefined and path.join throws a TypeError, which
the model reports as none. -/
def hashToFilePath (hash : String) : Option String :=
  if hash.data.isEmpty then none
  else some (pjoin [⟨hash.data.take 1⟩, ⟨hash.data.take 2⟩, hash])

/-- The TypeError message thrown by the path library when join receives an
undefined argument. -/
def pathTypeError : String := "Path must be a string."

/-- The second loop of getFilePaths, over the file-query rows; a thrown
TypeError aborts the whole traversal, so no later row is resolved. -/
def resolveRows (db : Db) (lazerFiles stableFiles : String) :
    List FileRow → Except String (List (String × String))
  | [] => .ok []
  | r :: rest =>
    match hashToFilePath r.hash with
    | none => .error pathTypeError
    | some hp =>
      match folderLookup db r.setID with
      | none => .error pathTypeError
      | some folder =>
        match resolveRows db lazerFiles stableFiles rest with
        | .error e => .error e
        | .ok tail =>
          .ok ((pjoin [lazerFiles, hp], pjoin [stableFiles, folder, r.filename]) :: tail)

/-- getFilePaths(db, lazerFiles, stableFiles): source/destination pairs for
every file row, or the first thrown TypeError. -/
def getFilePaths (db : Db) (lazerFiles stableFiles : String) :
    Except String (List (String × String)) :=
  resolveRows db lazerFiles stableFiles db.files

/-- A filesystem entry: a regular file with contents, or a symbolic link. -/
inductive Entry
  | file (contents : String)
  | link (target : String)
deriving DecidableEq

/-- The filesystem: a finite map from paths to entries, newest first.
Directories are implicit; ensureDirSync and ensureDir never fail here. -/
abbrev Fs := List (String × Entry)

def lookupFs (fs : Fs) (p : String) : Option Entry := List.lookup p fs

def insertFs (fs : Fs) (p : String) (e : Entry) : Fs := (p, e) :: fs

/-- copyFile: try ensureDirSync(dirname dest); copySync(src, dest).
copySync lstats the source (throwing NotFound when it is absent) and,
since overwrite is not set, throws when the destination already exists;
every throw is caught and debug-logged.  The result is the new filesystem
and the logged failure, if any, with its source/destination context. -/
def copyFile (src dest : String) (fs : Fs) : Fs × Option (String × String) :=
  match lookupFs fs src with
  | none => (fs, some (src, dest))
  | some e =>
    if (lookupFs fs dest).isSome then (fs, some (src, dest))
    else (insertFs fs dest e, none)

/-- linkFile: try ensureSymlink(src, dest).  ensureSymlink lstats the source
(throwing when it is absent); an existing destination is accepted silently
when it already is a symlink and throws otherwise; every throw is caught
and debug-logged. -/
def linkFile (src dest : String) (fs : Fs) : Fs × Option (String × String) :=
  match lookupFs fs src with
  | none => (fs, some (src, dest))
  | some _ =>
    match lookupFs fs dest with
    | some (.link _) => (fs, none)
    | some (.file _) => (fs, some (src, dest))
    | none => (insertFs fs dest (.link src), none)

/-- The two operating modes: let op = copyFile; if (mode != "copy")
op = linkFile. -/
inductive Op
  | copy
  | symlink
deriving DecidableEq

/-- Mode selection on the prompted string (none models the null that prompt
returns on closed stdin): exactly the string "copy" selects copying,
anything else selects linking. -/
def selectOp (mode : Option String) : Op :=
  if mode = some "copy" then Op.copy else Op.symlink

def applyOp : Op → String → String → Fs → Fs × Option (String × String)
  | Op.copy => copyFile
  | Op.symlink => linkFile

/-- The observable state of the transfer loop of main: the filesystem, the
completed counter, the caught-and-logged failures (in order, with their
source/destination context), and the completed values passed to
progress.render. -/
structure RunResult where
  fs : Fs
  completed : Nat
  errors : List (String × String)
  renders : List Nat
deriving DecidableEq

/-- The for-loop of main over the path pairs: apply the operation, add one
to completed, render at every 128th pair. -/
def runLoop (op : Op) : List (String × String) → Fs → Nat → RunResult
  | [], fs, completed => ⟨fs, completed, [], []⟩
  | (src, dest) :: rest, fs, completed =>
    let step := applyOp op src dest fs
    let r := runLoop op rest step.1 (completed + 1)
    { fs := r.fs
      completed := r.completed
      errors := step.2.toList ++ r.errors
      renders := (if (completed + 1) % 128 == 0 then [completed + 1] else []) ++ r.renders }

/-- The transfer phase of main: progress.render(0) once before the loop,
then the loop; there is no render after the loop. -/
def runTransfer (op : Op) (pairs : List (String × String)) (fs : Fs) : RunResult :=
  let r := runLoop op pairs fs 0
  { r with renders := 0 :: r.renders }

/-- The post-run message of main, logger.info of a constant success string,
independent of the run result. -/
def postRunReport (mode : String) (_r : RunResult) : String :=
  "Completed " ++ mode ++ " operations successfully."

/-- A character list that stands on its own as one path segment: nonempty,
not a dot segment, and free of separators. -/
abbrev cleanC (l : List Char) : Prop :=
  l ≠ [] ∧ l ≠ ['.'] ∧ l ≠ ['.', '.'] ∧ '/' ∉ l

/-- The string form of cleanC. -/
abbrev CleanSeg (s : String) : Prop := cleanC s.data

/-- The end-to-end scenario data source: one BeatmapSet row (ID 1, online
ID 100, artist "A", null author, title "B") and one file row
(set 1, filename bg.jpg, hash abc123). -/
def exDb1 : Db :=
  ⟨[⟨1, some 100, some "A", none, some "B"⟩], [⟨1, "bg.jpg", "abc123"⟩]⟩

/-- A folder-query row whose artist contains the reserved character <. -/
def exRow2 : SetRow := ⟨1, some 100, some "<A", none, some "B"⟩

/-- A data source whose first file row references BeatmapSetID 2, absent
from the folder table, while the second file row is fully resolvable. -/
def exDb3 : Db :=
  ⟨[⟨1, some 100, some "A", none, some "B"⟩],
    [⟨2, "x.png", "deadbe"⟩, ⟨1, "bg.jpg", "abc123"⟩]⟩

/-- A data source with one mapped file row whose hash is empty. -/
def exDb6 : Db :=
  ⟨[⟨1, some 100, some "A", none, some "B"⟩], [⟨1, "bg.jpg", ""⟩]⟩

/-- A folder-query row whose author metadata smuggles in dot-dot segments. -/
def exRow10 : SetRow := ⟨1, none, none, some "/../../x", none⟩

/-- A data source built on exRow10 with one resolvable file row. -/
def exDb10 : Db := ⟨[exRow10], [⟨1, "f.mp3", "cafe"⟩]⟩

-- Sanity checks of the executor model.
example :
    runTransfer Op.copy [("a", "b")] [("a", Entry.file "X")] =
      ⟨[("b", Entry.file "X"), ("a", Entry.file "X")], 1, [], [0]⟩ := by decide
example :
    runTransfer Op.copy [("a", "b")] [] = ⟨[], 1, [("a", "b")], [0]⟩ := by decide
example :
    runTransfer Op.symlink [("a", "b")] [("a", Entry.file "X")] =
      ⟨[("b", Entry.link "a"), ("a", Entry.file "X")], 1, [], [0]⟩ := by decide

-- Sanity checks of the path model against the path library's behavior.
example : normalize "a//b/./c/../d" = "a/b/d" := by decide
example : normalize "/../a" = "/a" := by decide
example : normalize "./" = "./" := by decide
example : normalize "" = "." := by decide
example : normalize "a/../../b" = "../b" := by decide
example : pjoin ["a", "", "b"] = "a/b" := by decide
example : hashToFilePath "9d1ab9ad1c" = some "9/9d/9d1ab9ad1c" := by decide
example : hashToFilePath "a" = some "a/a/a" := by decide
example : hashToFilePath "" = none := by decide
example :
    folderNameOf ⟨1, some 100, some "A", none, some "B"⟩ = "100 A - B []" := by
  decide
example :
    folderNameOf ⟨1, none, none, none, none⟩ = "-  []" := by decide
example : folderNameOf exRow10 = "../x]" := by decide

/-! Helper lemmas about segment splitting and joining. -/

theorem splitSeg_cons (c : Char) (rest : List Char) :
    splitSeg (c :: rest) =
      if c = '/' then [] :: splitSeg rest
      else
        match splitSeg rest with
        | [] => [[c]]
        | s :: ss => (c :: s) :: ss := rfl

theorem splitSeg_ne_nil (l : List Char) : splitSeg l ≠ [] := by
  induction l with
  | nil => simp [splitSeg]
  | cons c rest ih =>
    rw [splitSeg_cons]
    by_cases h : c = '/'
    · simp [h]
    · rw [if_neg h]
      cases hs : splitSeg rest with
      | nil => simp
      | cons s ss => simp

theorem joinSeg_cons (s : List Char) {rest : List (List Char)} (h : rest ≠ []) :
    joinSeg (s :: rest) = s ++ '/' :: joinSeg rest := by
  cases rest with
  | nil => exact absurd rfl h
  | cons t ts => rfl

theorem joinSeg_splitSeg (l : List Char) : joinSeg (splitSeg l) = l := by
  induction l with
  | nil => rfl
  | cons c rest ih =>
    rw [splitSeg_cons]
    by_cases h : c = '/'
    · subst h
      rw [if_pos rfl, joinSeg_cons _ (splitSeg_ne_nil rest), ih]
      rfl
    · rw [if_neg h]
      cases hs : splitSeg rest with
      | nil => exact absurd hs (splitSeg_ne_nil rest)
      | cons s ss =>
        rw [hs] at ih
        cases ss with
        | nil =>
          simp only [joinSeg] at ih ⊢
          rw [ih]
        | cons t ts =>
          show (c :: s) ++ '/' :: joinSeg (t :: ts) = c :: rest
          rw [joinSeg_cons _ (by simp)] at ih
          rw [List.cons_append, ih]

theorem splitSeg_sepFree {l : List Char} (h : '/' ∉ l) : splitSeg l = [l] := by
  induction l with
  | nil => rfl
  | cons c rest ih =>
    have hc : c ≠ '/' := by rintro rfl; exact h (List.mem_cons_self _ _)
    have h' : '/' ∉ rest := fun hm => h (List.mem_cons_of_mem _ hm)
    rw [splitSeg_cons, if_neg hc, ih h']

theorem splitSeg_slash {a : List Char} (b : List Char) (h : '/' ∉ a) :
    splitSeg (a ++ '/' :: b) = a :: splitSeg b := by
  induction a with
  | nil =>
    rw [List.nil_append, splitSeg_cons, if_pos rfl]
  | cons c a' ih =>
    have hc : c ≠ '/' := by rintro rfl; exact h (List.mem_cons_self _ _)
    have h' : '/' ∉ a' := fun hm => h (List.mem_cons_of_mem _ hm)
    rw [List.cons_append, splitSeg_cons, if_neg hc, ih h']

theorem splitSeg_last {c : Char} (l : List Char) (hc : c ≠ '/') :
    ∃ xs g, splitSeg (l ++ [c]) = xs ++ [g ++ [c]] := by
  induction l with
  | nil => exact ⟨[], [], by simp [splitSeg, hc]⟩
  | cons a l' ih =>
    obtain ⟨xs, g, hg⟩ := ih
    by_cases ha : a = '/'
    · subst ha
      refine ⟨[] :: xs, g, ?_⟩
      rw [List.cons_append, splitSeg_cons, if_pos rfl, hg]
      rfl
    · cases xs with
      | nil =>
        refine ⟨[], a :: g, ?_⟩
        rw [List.nil_append] at hg
        rw [List.cons_append, splitSeg_cons, if_neg ha, hg]
        rfl
      | cons x xs' =>
        refine ⟨(a :: x) :: xs', g, ?_⟩
        rw [List.cons_append, splitSeg_cons, if_neg ha, hg, List.cons_append]
        rfl

theorem stepSeg_clean (allow : Bool) (acc : List (List Char)) {s : List Char}
    (h0 : s ≠ []) (h1 : s ≠ ['.']) (h2 : s ≠ ['.', '.']) :
    stepSeg allow acc s = acc ++ [s] := by
  simp [stepSeg, h0, h1, h2]

theorem foldl_stepSeg_clean (allow : Bool) {segs : List (List Char)}
    (h : ∀ s ∈ segs, s ≠ [] ∧ s ≠ ['.'] ∧ s ≠ ['.', '.']) (acc : List (List Char)) :
    segs.foldl (stepSeg allow) acc = acc ++ segs := by
  induction segs generalizing acc with
  | nil => simp
  | cons s ss ih =>
    obtain ⟨h0, h1, h2⟩ := h s (List.mem_cons_self _ _)
    rw [List.foldl_cons, stepSeg_clean allow acc h0 h1 h2,
      ih (fun t ht => h t (List.mem_cons_of_mem _ ht))]
    simp

theorem procSegs_clean (allow : Bool) {segs : List (List Char)}
    (h : ∀ s ∈ segs, s ≠ [] ∧ s ≠ ['.'] ∧ s ≠ ['.', '.']) :
    procSegs allow segs = segs := by
  rw [procSegs, foldl_stepSeg_clean allow h []]
  rfl

theorem joinSeg_append_ne {g : List Char} (xs : List (List Char)) (hg : g ≠ []) :
    joinSeg (xs ++ [g]) ≠ [] := by
  induction xs with
  | nil => simpa [joinSeg] using hg
  | cons x xs' ih =>
    rw [List.cons_append, joinSeg_cons x (by simp)]
    simp

/-! Helper lemmas about normalize. -/

theorem head?_beq_slash_false {l : List Char} (h : '/' ∉ l) :
    (l.head? == some '/') = false := by
  cases l with
  | nil => rfl
  | cons c l' =>
    have hc : c ≠ '/' := by rintro rfl; exact h (List.mem_cons_self _ _)
    simpa using hc

theorem getLast?_beq_slash_false {l : List Char} (h : '/' ∉ l) :
    (l.getLast? == some '/') = false := by
  rw [beq_eq_false_iff_ne]
  intro he
  exact h (List.mem_of_mem_getLast? (by rw [he]; exact rfl))

theorem normAssemble_rel {t0 : List Char} (h : t0 ≠ []) :
    normAssemble false false t0 = ⟨t0⟩ := by
  cases t0 with
  | nil => exact absurd rfl h
  | cons c t => simp [normAssemble]

theorem normalize_eq_of {l : List Char} (h0 : l ≠ [])
    (habs : (l.head? == some '/') = false)
    (htrail : (l.getLast? == some '/') = false) :
    normalize ⟨l⟩ = normAssemble false false (joinSeg (procSegs true (splitSeg l))) := by
  rw [normalize]
  cases l with
  | nil => exact absurd rfl h0
  | cons c t =>
    simp only [habs, htrail]
    rfl

theorem normalize_single {l : List Char} (h : cleanC l) : normalize ⟨l⟩ = ⟨l⟩ := by
  obtain ⟨h0, h1, h2, h3⟩ := h
  have hsegs : ∀ s ∈ [l], s ≠ [] ∧ s ≠ ['.'] ∧ s ≠ ['.', '.'] := by
    intro s hs
    rw [List.mem_singleton] at hs
    subst hs
    exact ⟨h0, h1, h2⟩
  rw [normalize_eq_of h0 (head?_beq_slash_false h3) (getLast?_beq_slash_false h3),
    splitSeg_sepFree h3, procSegs_clean true hsegs]
  exact normAssemble_rel h0

theorem getLast?_append_cons (l : List Char) (c : Char) (m : List Char) :
    (l ++ c :: m).getLast? = (c :: m).getLast? := by
  rw [List.getLast?_append]
  obtain ⟨a, ha⟩ := Option.isSome_iff_exists.mp (List.getLast?_isSome.mpr (List.cons_ne_nil c m))
  rw [ha]
  rfl

theorem normalize_cons {r rest : List Char} (hr : cleanC r)
    (hsegs : ∀ s ∈ splitSeg rest, s ≠ [] ∧ s ≠ ['.'] ∧ s ≠ ['.', '.'])
    (hlast : (rest.getLast? == some '/') = false) :
    normalize ⟨r ++ '/' :: rest⟩ = ⟨r ++ '/' :: rest⟩ := by
  obtain ⟨h0, h1, h2, h3⟩ := hr
  have hrest : rest ≠ [] := by
    rintro rfl
    exact (hsegs [] (by simp [splitSeg])).1 rfl
  have hne : r ++ '/' :: rest ≠ [] := by simp
  have habs : ((r ++ '/' :: rest).head? == some '/') = false := by
    cases r with
    | nil => exact absurd rfl h0
    | cons c r' =>
      have hc : c ≠ '/' := by rintro rfl; exact h3 (List.mem_cons_self _ _)
      simpa using hc
  have htrail : ((r ++ '/' :: rest).getLast? == some '/') = false := by
    rw [getLast?_append_cons]
    cases rest with
    | nil => exact absurd rfl hrest
    | cons d m =>
      rw [List.getLast?_cons_cons]
      exact hlast
  have hsegs' : ∀ s ∈ r :: splitSeg rest, s ≠ [] ∧ s ≠ ['.'] ∧ s ≠ ['.', '.'] := by
    intro s hs
    rcases List.mem_cons.mp hs with rfl | hs'
    · exact ⟨h0, h1, h2⟩
    · exact hsegs s hs'
  rw [normalize_eq_of hne habs htrail, splitSeg_slash rest h3, procSegs_clean true hsegs',
    joinSeg_cons _ (splitSeg_ne_nil rest), joinSeg_splitSeg]
  exact normAssemble_rel (by simp)

/-! Helper lemmas about pjoin. -/

theorem bang_isEmpty_true {l : List Char} (h : l ≠ []) : (!l.isEmpty) = true := by
  cases l with
  | nil => exact absurd rfl h
  | cons c t => rfl

theorem pjoin2_eq {a b : String} (ha : a.data ≠ []) (hb : b.data ≠ []) :
    pjoin [a, b] = normalize ⟨a.data ++ '/' :: b.data⟩ := by
  simp only [pjoin, List.filter_cons, bang_isEmpty_true ha, bang_isEmpty_true hb,
    List.filter_nil, if_true]
  rfl

theorem pjoin3_eq {a b c : String} (ha : a.data ≠ []) (hb : b.data ≠ []) (hc : c.data ≠ []) :
    pjoin [a, b, c] = normalize ⟨a.data ++ '/' :: (b.data ++ '/' :: c.data)⟩ := by
  simp only [pjoin, List.filter_cons, bang_isEmpty_true ha, bang_isEmpty_true hb,
    bang_isEmpty_true hc, List.filter_nil, if_true]
  rfl

theorem pjoin2_clean {root rel : String} (hroot : CleanSeg root)
    (hsegs : ∀ s ∈ splitSeg rel.data, s ≠ [] ∧ s ≠ ['.'] ∧ s ≠ ['.', '.'])
    (hlast : (rel.data.getLast? == some '/') = false) :
    pjoin [root, rel] = root ++ "/" ++ rel := by
  have hrel : rel.data ≠ [] := by
    rintro hr
    exact (hsegs [] (by rw [hr]; simp [splitSeg])).1 rfl
  rw [pjoin2_eq hroot.1 hrel, normalize_cons hroot hsegs hlast]
  apply String.ext
  simp [String.data_append]

theorem pjoin3_clean {a b c : String} (ha : CleanSeg a) (hb : CleanSeg b) (hc : CleanSeg c) :
    pjoin [a, b, c] = a ++ "/" ++ b ++ "/" ++ c := by
  rw [pjoin3_eq ha.1 hb.1 hc.1]
  have hsegs : ∀ s ∈ splitSeg (b.data ++ '/' :: c.data),
      s ≠ [] ∧ s ≠ ['.'] ∧ s ≠ ['.', '.'] := by
    rw [splitSeg_slash _ hb.2.2.2, splitSeg_sepFree hc.2.2.2]
    intro s hs
    rcases List.mem_cons.mp hs with rfl | hs'
    · exact ⟨hb.1, hb.2.1, hb.2.2.1⟩
    · rw [List.mem_singleton] at hs'
      subst hs'
      exact ⟨hc.1, hc.2.1, hc.2.2.1⟩
  have hlast : ((b.data ++ '/' :: c.data).getLast? == some '/') = false := by
    rw [getLast?_append_cons]
    cases hcd : c.data with
    | nil => exact absurd hcd hc.1
    | cons d m =>
      rw [List.getLast?_cons_cons, ← hcd]
      exact getLast?_beq_slash_false hc.2.2.2
  rw [normalize_cons ha hsegs hlast]
  apply String.ext
  simp [String.data_append]

/-! Helper lemmas about the trim model. -/

theorem dropWhile_append_last {p : Char → Bool} {c : Char} (hc : p c = false) (m : List Char) :
    List.dropWhile p (m ++ [c]) = List.dropWhile p m ++ [c] := by
  induction m with
  | nil => simp [List.dropWhile_cons, hc]
  | cons a m' ih =>
    by_cases ha : p a = true
    · simp [List.dropWhile_cons, ha, ih]
    · simp [List.dropWhile_cons, ha]

theorem trimRightC_last {c : Char} (hc : jsWs c = false) (m : List Char) :
    trimRightC (m ++ [c]) = m ++ [c] := by
  rw [trimRightC, List.reverse_append]
  simp [List.dropWhile_cons, hc]

theorem jsTrim_data_last {s : String} {m : List Char} {c : Char}
    (hs : s.data = m ++ [c]) (hc : jsWs c = false) :
    (jsTrim s).data = List.dropWhile jsWs m ++ [c] := by
  show trimRightC (trimLeftC s.data) = _
  rw [hs, trimLeftC, dropWhile_append_last hc, trimRightC_last hc]

theorem mem_dropWhile_of_mem {p : Char → Bool} {c : Char} (hc : p c = false)
    {l : List Char} (h : c ∈ l) : c ∈ List.dropWhile p l := by
  induction l with
  | nil => cases h
  | cons a l' ih =>
    by_cases ha : p a = true
    · rw [List.dropWhile_cons, if_pos ha]
      rcases List.mem_cons.mp h with rfl | h'
      · rw [ha] at hc; cases hc
      · exact ih h'
    · rw [List.dropWhile_cons, if_neg ha]
      exact h

theorem mem_trim_of_mem {s : String} {c : Char} (hcw : jsWs c = false)
    (h : c ∈ s.data) : c ∈ (jsTrim s).data := by
  show c ∈ trimRightC (trimLeftC s.data)
  rw [trimRightC, List.mem_reverse]
  exact mem_dropWhile_of_mem hcw (List.mem_reverse.mpr (mem_dropWhile_of_mem hcw h))

theorem not_mem_trim {s : String} {c : Char} (h : c ∉ s.data) : c ∉ (jsTrim s).data := by
  intro hm
  apply h
  have h1 : c ∈ (trimLeftC s.data).reverse.dropWhile jsWs := List.mem_reverse.mp hm
  have h2 : c ∈ (trimLeftC s.data).reverse := List.Sublist.mem h1 (List.dropWhile_sublist _)
  exact List.Sublist.mem (List.mem_reverse.mp h2) (List.dropWhile_sublist _)

/-! Helper lemmas about the folder-name computation. -/

theorem append_last_ne {g : List Char} {c : Char} {t : List Char}
    (ht : t.getLast? = some '.') (hc : c ≠ '.') : g ++ [c] ≠ t := by
  intro he
  have h1 : (g ++ [c]).getLast? = some c := List.getLast?_concat g
  rw [he, ht] at h1
  exact hc (Option.some.inj h1).symm

theorem folderTemplate_data (r : SetRow) :
    ∃ m, (folderTemplate r).data = m ++ [']'] := by
  refine ⟨(ncInt r.onlineID ++ " " ++ ncStr r.artist ++ " - " ++ ncStr r.title ++
    " [" ++ ncStr r.author).data, ?_⟩
  rw [folderTemplate, String.data_append]

theorem jsTrim_template (r : SetRow) :
    ∃ m, (jsTrim (folderTemplate r)).data = m ++ [']'] := by
  obtain ⟨m, hm⟩ := folderTemplate_data r
  exact ⟨_, jsTrim_data_last hm (by decide)⟩

theorem mk_ne_empty {l : List Char} (h : l ≠ []) : (⟨l⟩ : String) ≠ "" := by
  intro he
  exact h (congrArg String.data he)

theorem normAssemble_ne_empty {isAbs trailing : Bool} {t0 : List Char} (h : t0 ≠ []) :
    normAssemble isAbs trailing t0 ≠ "" := by
  have h1 : t0.isEmpty = false := by
    cases t0 with
    | nil => exact absurd rfl h
    | cons a t => rfl
  cases isAbs <;> cases trailing <;>
    (apply mk_ne_empty; simp [normAssemble, h1, h])

theorem normalize_ne_empty_of_last {q : String} {m : List Char} {c : Char}
    (hq : q.data = m ++ [c]) (hc : c ≠ '/') (hcdot : c ≠ '.') :
    normalize q ≠ "" := by
  have hne : q.data ≠ [] := by rw [hq]; simp
  have hemp : q.data.isEmpty = false := by
    cases hd : q.data with
    | nil => exact absurd hd hne
    | cons a t => rfl
  rw [normalize, hemp]
  simp only [if_neg Bool.false_ne_true]
  apply normAssemble_ne_empty
  rw [hq]
  obtain ⟨xs, g, hsplit⟩ := splitSeg_last m hc
  rw [hsplit, procSegs, List.foldl_append, List.foldl_cons, List.foldl_nil,
    stepSeg_clean _ _ (by simp) (append_last_ne rfl hcdot) (append_last_ne rfl hcdot)]
  exact joinSeg_append_ne _ (by simp)

theorem folderNameOf_ne_empty (r : SetRow) : folderNameOf r ≠ "" := by
  obtain ⟨m, hm⟩ := jsTrim_template r
  rw [folderNameOf]
  exact normalize_ne_empty_of_last hm (by decide) (by decide)

theorem folderNameOf_sepFree {r : SetRow} (h : '/' ∉ (folderTemplate r).data) :
    folderNameOf r = jsTrim (folderTemplate r) ∧ CleanSeg (folderNameOf r) := by
  obtain ⟨m, hm⟩ := jsTrim_template r
  have hsf : '/' ∉ (jsTrim (folderTemplate r)).data := not_mem_trim h
  have hclean : cleanC (jsTrim (folderTemplate r)).data := by
    refine ⟨?_, ?_, ?_, hsf⟩
    · rw [hm]; simp
    · rw [hm]; exact append_last_ne rfl (by decide)
    · rw [hm]; exact append_last_ne rfl (by decide)
  have heq : folderNameOf r = jsTrim (folderTemplate r) := by
    rw [folderNameOf]
    exact normalize_single hclean
  refine ⟨heq, ?_⟩
  rw [CleanSeg, heq]
  exact hclean

theorem mem_folderNameOf {r : SetRow} (h : '/' ∉ (folderTemplate r).data) {c : Char}
    (hcw : jsWs c = false) (hc : c ∈ (folderTemplate r).data) :
    c ∈ (folderNameOf r).data := by
  rw [(folderNameOf_sepFree h).1]
  exact mem_trim_of_mem hcw hc

/-! Helper lemmas about the resolver loop. -/

theorem resolveRows_cons (db : Db) (lz st : String) (r : FileRow) (rest : List FileRow) :
    resolveRows db lz st (r :: rest) =
      match hashToFilePath r.hash with
      | none => .error pathTypeError
      | some hp =>
        match folderLookup db r.setID with
        | none => .error pathTypeError
        | some folder =>
          match resolveRows db lz st rest with
          | .error e => .error e
          | .ok tail => .ok ((pjoin [lz, hp], pjoin [st, folder, r.filename]) :: tail) := rfl

theorem hashToFilePath_of_ne {h : String} (hh : h ≠ "") :
    hashToFilePath h = some (pjoin [⟨h.data.take 1⟩, ⟨h.data.take 2⟩, h]) := by
  have hd : h.data.isEmpty = false := by
    cases hq : h.data with
    | nil => exact absurd (String.ext hq) hh
    | cons a t => rfl
  rw [hashToFilePath, hd]
  rfl

theorem resolveRows_ok_length (db : Db) (lz st : String) :
    ∀ rows : List FileRow,
      (∀ r ∈ rows, r.hash ≠ "" ∧ (folderLookup db r.setID).isSome = true) →
      ∃ l, resolveRows db lz st rows = .ok l ∧ l.length = rows.length := by
  intro rows
  induction rows with
  | nil => exact fun _ => ⟨[], rfl, rfl⟩
  | cons r rest ih =>
    intro h
    obtain ⟨hh, hl⟩ := h r (List.mem_cons_self _ _)
    obtain ⟨l, hokl, hlen⟩ := ih (fun q hq => h q (List.mem_cons_of_mem _ hq))
    obtain ⟨f, hf⟩ := Option.isSome_iff_exists.mp hl
    refine ⟨(pjoin [lz, pjoin [⟨r.hash.data.take 1⟩, ⟨r.hash.data.take 2⟩, r.hash]],
      pjoin [st, f, r.filename]) :: l, ?_, by simp [hlen]⟩
    rw [resolveRows_cons, hashToFilePath_of_ne hh, hf, hokl]

theorem resolveRows_error (db : Db) (lz st : String) :
    ∀ rows : List FileRow,
      (∃ r ∈ rows, r.hash = "" ∨ folderLookup db r.setID = none) →
      ∃ e, resolveRows db lz st rows = .error e := by
  intro rows
  induction rows with
  | nil => rintro ⟨r, hr, _⟩; cases hr
  | cons r rest ih =>
    rintro ⟨q, hq, hbad⟩
    rcases List.mem_cons.mp hq with rfl | hq'
    · rcases hbad with hh | hl
      · have hn : hashToFilePath q.hash = none := by rw [hh]; rfl
        rw [resolveRows_cons, hn]
        exact ⟨pathTypeError, rfl⟩
      · cases hhp : hashToFilePath q.hash with
        | none => rw [resolveRows_cons, hhp]; exact ⟨pathTypeError, rfl⟩
        | some hp => rw [resolveRows_cons, hhp, hl]; exact ⟨pathTypeError, rfl⟩
    · obtain ⟨e, he⟩ := ih ⟨q, hq', hbad⟩
      cases hhp : hashToFilePath r.hash with
      | none => rw [resolveRows_cons, hhp]; exact ⟨pathTypeError, rfl⟩
      | some hp =>
        cases hfl : folderLookup db r.setID with
        | none => rw [resolveRows_cons, hhp, hfl]; exact ⟨pathTypeError, rfl⟩
        | some folder => rw [resolveRows_cons, hhp, hfl, he]; exact ⟨e, rfl⟩

/-! Helper lemmas about the transfer loop. -/

theorem lookupFs_insert (fs : Fs) (d x : String) (e : Entry) :
    lookupFs (insertFs fs d e) x = if x = d then some e else lookupFs fs x := by
  rw [lookupFs, insertFs, List.lookup_cons]
  by_cases h : x = d
  · rw [if_pos h, beq_iff_eq.mpr h]
  · rw [if_neg h, beq_eq_false_iff_ne.mpr h]
    rfl

theorem copyFile_shape (s d : String) (fs : Fs) :
    copyFile s d fs = (fs, some (s, d)) ∨
      ∃ en, lookupFs fs d = none ∧ copyFile s d fs = (insertFs fs d en, none) := by
  unfold copyFile
  cases hs : lookupFs fs s with
  | none => exact Or.inl rfl
  | some e =>
    cases hd : lookupFs fs d with
    | some x => exact Or.inl (by simp)
    | none => exact Or.inr ⟨e, rfl, by simp⟩

theorem linkFile_shape (s d : String) (fs : Fs) :
    linkFile s d fs = (fs, some (s, d)) ∨ linkFile s d fs = (fs, none) ∨
      ∃ en, lookupFs fs d = none ∧ linkFile s d fs = (insertFs fs d en, none) := by
  unfold linkFile
  cases hs : lookupFs fs s with
  | none => exact Or.inl rfl
  | some e =>
    cases hd : lookupFs fs d with
    | none => exact Or.inr (Or.inr ⟨Entry.link s, rfl, rfl⟩)
    | some x =>
      cases x with
      | file c => exact Or.inl rfl
      | link t => exact Or.inr (Or.inl rfl)

theorem applyOp_shape (op : Op) (s d : String) (fs : Fs) :
    (applyOp op s d fs).1 = fs ∨
      ∃ en, lookupFs fs d = none ∧ applyOp op s d fs = (insertFs fs d en, none) := by
  cases op with
  | copy =>
    rcases copyFile_shape s d fs with h | ⟨en, hd, h⟩
    · left
      show (copyFile s d fs).1 = fs
      rw [h]
    · exact Or.inr ⟨en, hd, h⟩
  | symlink =>
    rcases linkFile_shape s d fs with h | h | ⟨en, hd, h⟩
    · left
      show (linkFile s d fs).1 = fs
      rw [h]
    · left
      show (linkFile s d fs).1 = fs
      rw [h]
    · exact Or.inr ⟨en, hd, h⟩

theorem applyOp_err (op : Op) (s d : String) (fs : Fs) :
    (applyOp op s d fs).2 = none ∨ (applyOp op s d fs).2 = some (s, d) := by
  cases op with
  | copy =>
    rcases copyFile_shape s d fs with h | ⟨en, _, h⟩
    · right
      show (copyFile s d fs).2 = _
      rw [h]
    · left
      show (copyFile s d fs).2 = _
      rw [h]
  | symlink =>
    rcases linkFile_shape s d fs with h | h | ⟨en, _, h⟩
    · right
      show (linkFile s d fs).2 = _
      rw [h]
    · left
      show (linkFile s d fs).2 = _
      rw [h]
    · left
      show (linkFile s d fs).2 = _
      rw [h]

theorem runLoop_cons_fs (op : Op) (s d : String) (ps : List (String × String))
    (fs : Fs) (n : Nat) :
    (runLoop op ((s, d) :: ps) fs n).fs =
      (runLoop op ps (applyOp op s d fs).1 (n + 1)).fs := rfl

theorem runLoop_cons_completed (op : Op) (s d : String) (ps : List (String × String))
    (fs : Fs) (n : Nat) :
    (runLoop op ((s, d) :: ps) fs n).completed =
      (runLoop op ps (applyOp op s d fs).1 (n + 1)).completed := rfl

theorem runLoop_cons_errors (op : Op) (s d : String) (ps : List (String × String))
    (fs : Fs) (n : Nat) :
    (runLoop op ((s, d) :: ps) fs n).errors =
      (applyOp op s d fs).2.toList ++ (runLoop op ps (applyOp op s d fs).1 (n + 1)).errors := rfl

theorem runLoop_cons_renders (op : Op) (s d : String) (ps : List (String × String))
    (fs : Fs) (n : Nat) :
    (runLoop op ((s, d) :: ps) fs n).renders =
      (if (n + 1) % 128 == 0 then [n + 1] else []) ++
        (runLoop op ps (applyOp op s d fs).1 (n + 1)).renders := rfl

theorem runLoop_completed (op : Op) :
    ∀ (ps : List (String × String)) (fs : Fs) (n : Nat),
      (runLoop op ps fs n).completed = n + ps.length := by
  intro ps
  induction ps with
  | nil => intro fs n; rfl
  | cons p ps' ih =>
    intro fs n
    obtain ⟨s, d⟩ := p
    rw [runLoop_cons_completed, ih]
    simp
    omega

theorem runLoop_errors_mem (op : Op) {e : String × String} :
    ∀ (ps : List (String × String)) (fs : Fs) (n : Nat),
      e ∈ (runLoop op ps fs n).errors → e ∈ ps := by
  intro ps
  induction ps with
  | nil => intro fs n h; cases h
  | cons p ps' ih =>
    intro fs n h
    obtain ⟨s, d⟩ := p
    rw [runLoop_cons_errors] at h
    rcases List.mem_append.mp h with h1 | h2
    · rcases applyOp_err op s d fs with he | he
      · rw [he] at h1; cases h1
      · rw [he] at h1
        rcases List.mem_singleton.mp h1 with rfl
        exact List.mem_cons_self _ _
    · exact List.mem_cons_of_mem _ (ih _ _ h2)

theorem lookupFs_runLoop_some (op : Op) {x : String} {e : Entry} :
    ∀ (ps : List (String × String)) (fs : Fs) (n : Nat),
      lookupFs fs x = some e → lookupFs (runLoop op ps fs n).fs x = some e := by
  intro ps
  induction ps with
  | nil => intro fs n h; exact h
  | cons p ps' ih =>
    intro fs n h
    obtain ⟨s, d⟩ := p
    rw [runLoop_cons_fs]
    apply ih
    rcases applyOp_shape op s d fs with h1 | ⟨en, hd, h1⟩
    · rw [h1]; exact h
    · rw [show (applyOp op s d fs).1 = insertFs fs d en from by rw [h1], lookupFs_insert]
      by_cases hx : x = d
      · subst hx; rw [h] at hd; cases hd
      · rw [if_neg hx]; exact h

theorem lookupFs_runLoop_nonDest (op : Op) {x : String} :
    ∀ (ps : List (String × String)) (fs : Fs) (n : Nat),
      x ∉ ps.map Prod.snd → lookupFs (runLoop op ps fs n).fs x = lookupFs fs x := by
  intro ps
  induction ps with
  | nil => intro fs n _; rfl
  | cons p ps' ih =>
    intro fs n h
    obtain ⟨s, d⟩ := p
    have hxd : x ≠ d := by
      intro hx
      apply h
      rw [List.map_cons]
      exact List.mem_cons.mpr (Or.inl hx)
    have h' : x ∉ ps'.map Prod.snd := by
      intro hm
      apply h
      rw [List.map_cons]
      exact List.mem_cons_of_mem _ hm
    rw [runLoop_cons_fs, ih _ _ h']
    rcases applyOp_shape op s d fs with h1 | ⟨en, hd, h1⟩
    · rw [h1]
    · rw [show (applyOp op s d fs).1 = insertFs fs d en from by rw [h1], lookupFs_insert,
        if_neg hxd]

theorem runLoop_copy_dest {s d : String} :
    ∀ (ps : List (String × String)) (fs : Fs) (n : Nat),
      (s, d) ∈ ps → s ∉ ps.map Prod.snd → (lookupFs fs s).isSome = true →
      (lookupFs (runLoop Op.copy ps fs n).fs d).isSome = true := by
  intro ps
  induction ps with
  | nil => intro fs n hmem; cases hmem
  | cons p ps' ih =>
    intro fs n hmem hs hsome
    obtain ⟨s0, d0⟩ := p
    rw [runLoop_cons_fs]
    rcases List.mem_cons.mp hmem with heq | hmem'
    · cases heq
      obtain ⟨e, he⟩ := Option.isSome_iff_exists.mp hsome
      cases hd : lookupFs fs d with
      | some x =>
        have hfs : (applyOp Op.copy s d fs).1 = fs := by
          show (copyFile s d fs).1 = fs
          unfold copyFile
          rw [he, hd]
          rfl
        rw [hfs, lookupFs_runLoop_some Op.copy ps' fs (n + 1) hd]
        rfl
      | none =>
        have hfs : (applyOp Op.copy s d fs).1 = insertFs fs d e := by
          show (copyFile s d fs).1 = _
          unfold copyFile
          rw [he, hd]
          rfl
        have hl : lookupFs (insertFs fs d e) d = some e := by
          rw [lookupFs_insert, if_pos rfl]
        rw [hfs, lookupFs_runLoop_some Op.copy ps' _ (n + 1) hl]
        rfl
    · have hs' : s ∉ ps'.map Prod.snd := by
        intro hm
        apply hs
        rw [List.map_cons]
        exact List.mem_cons_of_mem _ hm
      apply ih _ (n + 1) hmem' hs'
      rcases applyOp_shape Op.copy s0 d0 fs with h1 | ⟨en, hd0, h1⟩
      · rw [h1]; exact hsome
      · have hsd0 : s ≠ d0 := by
          intro hx
          apply hs
          rw [List.map_cons]
          exact List.mem_cons.mpr (Or.inl hx)
        rw [show (applyOp Op.copy s0 d0 fs).1 = insertFs fs d0 en from by rw [h1],
          lookupFs_insert, if_neg hsd0]
        exact hsome

theorem runLoop_copy_noop :
    ∀ (ps : List (String × String)) (fs : Fs) (n : Nat),
      (∀ p ∈ ps, lookupFs fs p.1 = none ∨ (lookupFs fs p.2).isSome = true) →
      (runLoop Op.copy ps fs n).fs = fs := by
  intro ps
  induction ps with
  | nil => intro fs n _; rfl
  | cons p ps' ih =>
    intro fs n h
    obtain ⟨s0, d0⟩ := p
    have hfs : (applyOp Op.copy s0 d0 fs).1 = fs := by
      show (copyFile s0 d0 fs).1 = fs
      rcases h (s0, d0) (List.mem_cons_self _ _) with h1 | h1
      · unfold copyFile
        rw [h1]
      · unfold copyFile
        cases hs0 : lookupFs fs s0 with
        | none => rfl
        | some e =>
          have h1' : (lookupFs fs d0).isSome = true := h1
          show (if (lookupFs fs d0).isSome = true then (fs, some (s0, d0))
            else (insertFs fs d0 e, none)).1 = fs
          rw [if_pos h1']
    rw [runLoop_cons_fs, hfs]
    exact ih fs (n + 1) (fun q hq => h q (List.mem_cons_of_mem _ hq))

theorem runLoop_renders (op : Op) :
    ∀ (ps : List (String × String)) (fs : Fs) (n : Nat),
      (runLoop op ps fs n).renders =
        ((List.range ps.length).map (fun i => n + i + 1)).filter (fun k => k % 128 == 0) := by
  intro ps
  induction ps with
  | nil => intro fs n; rfl
  | cons p ps' ih =>
    intro fs n
    obtain ⟨s, d⟩ := p
    rw [runLoop_cons_renders, ih]
    rw [List.length_cons, List.range_succ_eq_map, List.map_cons, List.map_map]
    have hf : ((fun i => n + i + 1) ∘ Nat.succ) = fun i => n + 1 + i + 1 := by
      funext i
      simp only [Function.comp_apply, Nat.succ_eq_add_one]
      omega
    rw [hf, List.filter_cons]
    simp only [Nat.add_zero]
    by_cases hn : ((n + 1) % 128 == 0) = true
    · rw [if_pos hn, if_pos hn]
      rfl
    · rw [if_neg hn, if_neg hn]
      rfl

/-! The claims. -/

/-- C9 (confirmed): the operation-mode selection maps the input string
"copy" to the copy operation and every other input — any other string, any
casing variant, the empty string, or the null prompt result — to the
symlink operation; the Op type has no third alternative. -/
theorem C9_mode_selection :
    selectOp (some "copy") = Op.copy ∧
      ∀ m : Option String, m ≠ some "copy" → selectOp m = Op.symlink := by
  refine ⟨rfl, ?_⟩
  intro m hm
  rw [selectOp, if_neg hm]

/-- C9 witness: a casing variant and the null prompt result both select the
symlink operation, while "copy" selects the copy operation. -/
theorem C9_mode_selection_witness :
    selectOp (some "Copy") = Op.symlink ∧ selectOp none = Op.symlink ∧
      selectOp (some "copy") = Op.copy :=
  ⟨C9_mode_selection.2 (some "Copy") (by decide),
    C9_mode_selection.2 none (by decide), C9_mode_selection.1⟩

/-- C1 counterexample: with contentRoot "files" and destRoot "Songs", the
end-to-end scenario resolves its one pair to destination
"Songs/100 A - B []/bg.jpg": the bracket literals are emitted even though
the author is null, so the destination differs from the claimed
"Songs/100 A - B/bg.jpg". -/
theorem C1_end_to_end_counterexample :
    getFilePaths exDb1 "files" "Songs" =
      .ok [("files/a/ab/abc123", "Songs/100 A - B []/bg.jpg")] ∧
      "Songs/100 A - B []/bg.jpg" ≠ "Songs/100 A - B/bg.jpg" :=
  ⟨rfl, by decide⟩

/-- C1 amended: for the end-to-end scenario the resolver returns exactly
one pair, source contentRoot/a/ab/abc123 and destination
destRoot/"100 A - B []"/bg.jpg — folder name trimmed, but with an empty
author bracket, since the template appends " [" + author + "]"
unconditionally — for any roots that are plain path segments. -/
theorem C1_end_to_end (contentRoot destRoot : String)
    (hc : CleanSeg contentRoot) (hd : CleanSeg destRoot) :
    getFilePaths exDb1 contentRoot destRoot =
      .ok [(contentRoot ++ "/" ++ "a/ab/abc123",
        destRoot ++ "/" ++ "100 A - B []" ++ "/" ++ "bg.jpg")] := by
  have h1 : hashToFilePath "abc123" = some "a/ab/abc123" := by decide
  have h2 : folderLookup exDb1 1 = some "100 A - B []" := by decide
  have hsrc : pjoin [contentRoot, "a/ab/abc123"] = contentRoot ++ "/" ++ "a/ab/abc123" :=
    pjoin2_clean hc (by decide) (by decide)
  have hdest : pjoin [destRoot, "100 A - B []", "bg.jpg"] =
      destRoot ++ "/" ++ "100 A - B []" ++ "/" ++ "bg.jpg" :=
    pjoin3_clean hd (by decide) (by decide)
  show resolveRows exDb1 contentRoot destRoot [⟨1, "bg.jpg", "abc123"⟩] = _
  rw [resolveRows_cons]
  simp only [h1, h2, hsrc, hdest]
  rw [show resolveRows exDb1 contentRoot destRoot [] = .ok [] from rfl]

/-- C1 witness: the amended scenario at the concrete roots. -/
theorem C1_end_to_end_witness :
    getFilePaths exDb1 "lazer" "stable" =
      .ok [("lazer" ++ "/" ++ "a/ab/abc123",
        "stable" ++ "/" ++ "100 A - B []" ++ "/" ++ "bg.jpg")] :=
  C1_end_to_end "lazer" "stable" (by decide) (by decide)

/-- C2 counterexample: the artist "<A" contains the reserved character <,
and the computed folder name "100 <A - B []" still contains it — no
replacement by '-' happens anywhere in the resolver. -/
theorem C2_reserved_counterexample :
    folderNameOf exRow2 = "100 <A - B []" ∧ '<' ∈ (folderNameOf exRow2).data :=
  ⟨by decide, by decide⟩

/-- C2 amended: the folder-name computation performs no reserved-character
replacement: whenever the template string built from the metadata contains
no path separator, every occurrence of a reserved character other than the
separator survives verbatim into the folder name. -/
theorem C2_reserved_chars (r : SetRow) (c : Char)
    (hres : c ∈ ['<', '>', ':', '\"', '\\', '|', '?', '*'])
    (hsep : '/' ∉ (folderTemplate r).data)
    (hc : c ∈ (folderTemplate r).data) :
    c ∈ (folderNameOf r).data := by
  have hall : ∀ x ∈ ['<', '>', ':', '\"', '\\', '|', '?', '*'], jsWs x = false := by decide
  exact mem_folderNameOf hsep (hall c hres) hc

/-- C2 witness: the reserved character < of exRow2 survives into its
folder name. -/
theorem C2_reserved_chars_witness : '<' ∈ (folderNameOf exRow2).data :=
  C2_reserved_chars exRow2 '<' (by decide) (by decide) (by decide)

/-- C3 counterexample: in exDb3 the first file row references set 2, which
has no folder-name entry; resolution aborts with the path TypeError — the
bad row is not skipped, and the perfectly resolvable second row is never
emitted. -/
theorem C3_skip_counterexample :
    getFilePaths exDb3 "files" "Songs" = .error pathTypeError := rfl

/-- C3 amended: a file row whose BeatmapSetID has no folder-name entry, or
whose hash is empty, makes path.join throw and aborts the entire
resolution — no per-row skipping occurs and no pair is returned; a hash of
length one (shorter than 2) is accepted, yielding the sharded path
a/a/a. -/
theorem C3_row_errors :
    (∀ (db : Db) (lz st : String),
      (∃ r ∈ db.files, r.hash = "" ∨ folderLookup db r.setID = none) →
      ∃ e, getFilePaths db lz st = .error e) ∧
      hashToFilePath "a" = some "a/a/a" := by
  refine ⟨?_, by decide⟩
  intro db lz st h
  exact resolveRows_error db lz st db.files h

/-- C3 witness: the amended abort behavior at the concrete data source. -/
theorem C3_row_errors_witness :
    (∃ e, getFilePaths exDb3 "files" "Songs" = .error e) ∧
      hashToFilePath "a" = some "a/a/a" :=
  ⟨C3_row_errors.1 exDb3 "files" "Songs" (by decide), C3_row_errors.2⟩

/-- C6 counterexample: a data source with exactly one file row whose set ID
is mapped but whose hash is empty yields no pair list at all: resolution
aborts with the path TypeError instead of producing one pair. -/
theorem C6_completeness_counterexample :
    getFilePaths exDb6 "files" "Songs" = .error pathTypeError := rfl

/-- C6 amended: for every data source whose file rows all have a mapped
BeatmapSetID and a nonempty hash, resolution succeeds with exactly one
pair per file row. -/
theorem C6_completeness (db : Db) (lz st : String)
    (h : ∀ r ∈ db.files, r.hash ≠ "" ∧ (folderLookup db r.setID).isSome = true) :
    ∃ l, getFilePaths db lz st = .ok l ∧ l.length = db.files.length :=
  resolveRows_ok_length db lz st db.files h

/-- C6 witness: the amended completeness on the one-row scenario source. -/
theorem C6_completeness_witness :
    ∃ l, getFilePaths exDb1 "files" "Songs" = .ok l ∧ l.length = exDb1.files.length :=
  C6_completeness exDb1 "files" "Songs" (by decide)

/-- C4 counterexample: over the pair list [(s1,d1),(s2,d2)], the run whose
store is missing s2 and the clean run produce identical completed counters,
identical render streams and the identical constant success message; the
single caught failure reaches only the debug log. No errors total — in
particular no errors == 1 — is ever reported, and the failing run is not
reported distinctly from the clean one. -/
theorem C4_report_counterexample :
    (runTransfer Op.copy [("s1", "d1"), ("s2", "d2")] [("s1", Entry.file "A")]).completed =
      (runTransfer Op.copy [("s1", "d1"), ("s2", "d2")]
        [("s1", Entry.file "A"), ("s2", Entry.file "B")]).completed ∧
    (runTransfer Op.copy [("s1", "d1"), ("s2", "d2")] [("s1", Entry.file "A")]).renders =
      (runTransfer Op.copy [("s1", "d1"), ("s2", "d2")]
        [("s1", Entry.file "A"), ("s2", Entry.file "B")]).renders ∧
    postRunReport "copy"
        (runTransfer Op.copy [("s1", "d1"), ("s2", "d2")] [("s1", Entry.file "A")]) =
      postRunReport "copy"
        (runTransfer Op.copy [("s1", "d1"), ("s2", "d2")]
          [("s1", Entry.file "A"), ("s2", Entry.file "B")]) ∧
    (runTransfer Op.copy [("s1", "d1"), ("s2", "d2")]
      [("s1", Entry.file "A")]).errors.length = 1 ∧
    (runTransfer Op.copy [("s1", "d1"), ("s2", "d2")]
      [("s1", Entry.file "A"), ("s2", Entry.file "B")]).errors.length = 0 := by
  decide

/-- C4 amended: the executor surfaces only the completed counter and a
constant success message: completed equals the number of pairs on every run
(all pairs are always attempted), and the post-run report is a fixed string
independent of the outcome, so no error total is part of the report. -/
theorem C4_report (op : Op) (mode : String) (pairs : List (String × String)) (fs : Fs) :
    (runTransfer op pairs fs).completed = pairs.length ∧
      postRunReport mode (runTransfer op pairs fs) =
        "Completed " ++ mode ++ " operations successfully." := by
  constructor
  · show (runLoop op pairs fs 0).completed = pairs.length
    rw [runLoop_completed]
    omega
  · rfl

/-- C5 counterexample: for the single symlink pair (a,b), the failing run
(empty store) and the successful run expose identical completed counters,
render streams and post-run message; the caught failure appears only in
the debug log — it is logged, not counted into any error total. -/
theorem C5_failure_counterexample :
    (runTransfer Op.symlink [("a", "b")] []).completed =
      (runTransfer Op.symlink [("a", "b")] [("a", Entry.file "X")]).completed ∧
    (runTransfer Op.symlink [("a", "b")] []).renders =
      (runTransfer Op.symlink [("a", "b")] [("a", Entry.file "X")]).renders ∧
    postRunReport "symlink" (runTransfer Op.symlink [("a", "b")] []) =
      postRunReport "symlink"
        (runTransfer Op.symlink [("a", "b")] [("a", Entry.file "X")]) ∧
    (runTransfer Op.symlink [("a", "b")] []).errors = [("a", "b")] ∧
    (runTransfer Op.symlink [("a", "b")] [("a", Entry.file "X")]).errors = [] := by
  decide

/-- C5 amended: every per-pair failure — missing source, or an occupied
destination, in either mode — is caught and debug-logged with the pair's
source/destination context, and the loop always continues: completed equals
the number of pairs on every run, and each logged failure is one of the
input pairs; failures are recorded in the log only, never tallied into a
counter. -/
theorem C5_failure_policy (op : Op) (pairs : List (String × String)) (fs : Fs) :
    (runTransfer op pairs fs).completed = pairs.length ∧
      ∀ e ∈ (runTransfer op pairs fs).errors, e ∈ pairs := by
  constructor
  · show (runLoop op pairs fs 0).completed = pairs.length
    rw [runLoop_completed]
    omega
  · intro e he
    exact runLoop_errors_mem op pairs fs 0 he

/-- C5 witness: the failure of the concrete pair is logged with its own
source/destination context. -/
theorem C5_failure_policy_witness :
    (runTransfer Op.symlink [("x", "y")] []).completed = 1 ∧ ("x", "y") ∈ [("x", "y")] :=
  ⟨(C5_failure_policy Op.symlink [("x", "y")] []).1,
    (C5_failure_policy Op.symlink [("x", "y")] []).2 ("x", "y") (by decide)⟩

/-- C7 counterexample: for a single successful pair, the sink is notified
exactly once, before the loop, with 0; the run finishes with completed 1
but no notification carrying the final count is ever sent — there is no
end-of-run render. -/
theorem C7_progress_counterexample :
    (runTransfer Op.copy [("s", "d")] [("s", Entry.file "X")]).renders = [0] ∧
    (runTransfer Op.copy [("s", "d")] [("s", Entry.file "X")]).completed = 1 ∧
    1 ∉ (runTransfer Op.copy [("s", "d")] [("s", Entry.file "X")]).renders := by
  decide

/-- C7 amended: the completed counter increases by exactly one per pair,
success or failure; the progress sink is notified once before the loop
(with 0) and then exactly at every 128th pair; there is no additional
end-of-run notification, so the final count reaches the sink only when the
total is a multiple of 128. -/
theorem C7_progress (op : Op) (pairs : List (String × String)) (fs : Fs) :
    (runTransfer op pairs fs).completed = pairs.length ∧
    (runTransfer op pairs fs).renders =
      0 :: ((List.range pairs.length).map (fun i => i + 1)).filter
        (fun k => k % 128 == 0) := by
  constructor
  · show (runLoop op pairs fs 0).completed = pairs.length
    rw [runLoop_completed]
    omega
  · show 0 :: (runLoop op pairs fs 0).renders = _
    rw [runLoop_renders]
    have hfun : (fun i => 0 + i + 1) = fun i : Nat => i + 1 := by
      funext i
      omega
    rw [hfun]

/-- C8 counterexample: for the pair list [(x,y),(a,x)] over a store holding
only a, the first run creates x (from the second pair) but cannot create y;
the second run then creates y from the freshly created x, so the
destination contents after running twice differ from the contents after
running once. -/
theorem C8_idempotence_counterexample :
    lookupFs (runTransfer Op.copy [("x", "y"), ("a", "x")]
      [("a", Entry.file "A")]).fs "y" = none ∧
    lookupFs (runTransfer Op.copy [("x", "y"), ("a", "x")]
      (runTransfer Op.copy [("x", "y"), ("a", "x")] [("a", Entry.file "A")]).fs).fs "y" =
      some (Entry.file "A") := by
  decide

/-- C8 amended: provided no pair's destination coincides with any pair's
source, running the copy executor twice over the same pair list yields the
same final store as running it once, and the second run attempts every
pair — a pre-existing destination is caught as an already-exists error and
tolerated; nothing propagates out of the run. -/
theorem C8_idempotence (pairs : List (String × String)) (fs : Fs)
    (h : ∀ p ∈ pairs, ∀ q ∈ pairs, p.2 ≠ q.1) :
    (runTransfer Op.copy pairs (runTransfer Op.copy pairs fs).fs).fs =
      (runTransfer Op.copy pairs fs).fs ∧
    (runTransfer Op.copy pairs (runTransfer Op.copy pairs fs).fs).completed =
      pairs.length := by
  have key : ∀ p ∈ pairs, lookupFs (runLoop Op.copy pairs fs 0).fs p.1 = none ∨
      (lookupFs (runLoop Op.copy pairs fs 0).fs p.2).isSome = true := by
    intro p hp
    obtain ⟨s, d⟩ := p
    have hsnot : s ∉ pairs.map Prod.snd := by
      intro hm
      obtain ⟨q, hq, hq2⟩ := List.mem_map.mp hm
      exact absurd hq2 (h q hq (s, d) hp)
    show lookupFs (runLoop Op.copy pairs fs 0).fs s = none ∨
      (lookupFs (runLoop Op.copy pairs fs 0).fs d).isSome = true
    rw [lookupFs_runLoop_nonDest Op.copy pairs fs 0 hsnot]
    cases hs : lookupFs fs s with
    | none => exact Or.inl rfl
    | some e =>
      right
      exact runLoop_copy_dest pairs fs 0 hp hsnot (by rw [hs]; rfl)
  constructor
  · show (runLoop Op.copy pairs (runLoop Op.copy pairs fs 0).fs 0).fs =
      (runLoop Op.copy pairs fs 0).fs
    exact runLoop_copy_noop pairs _ 0 key
  · show (runLoop Op.copy pairs (runLoop Op.copy pairs fs 0).fs 0).completed = pairs.length
    rw [runLoop_completed]
    omega

/-- C8 witness: idempotence on a concrete store and disjoint pair. -/
theorem C8_idempotence_witness :
    (runTransfer Op.copy [("a", "b")]
      (runTransfer Op.copy [("a", "b")] [("a", Entry.file "X")]).fs).fs =
      (runTransfer Op.copy [("a", "b")] [("a", Entry.file "X")]).fs ∧
    (runTransfer Op.copy [("a", "b")]
      (runTransfer Op.copy [("a", "b")] [("a", Entry.file "X")]).fs).completed = 1 :=
  C8_idempotence [("a", "b")] [("a", Entry.file "X")] (by decide)

/-- C10 counterexample: with destination root "Songs", the set whose author
metadata is "/../../x" yields the folder name "../x]", and its file
resolves to destination "x]/f.mp3" — outside the destination root, hence
not strictly inside any per-set subfolder of it. -/
theorem C10_containment_counterexample :
    getFilePaths exDb10 "files" "Songs" = .ok [("files/c/ca/cafe", "x]/f.mp3")] ∧
    ("x]/f.mp3").take 6 ≠ "Songs/" :=
  ⟨rfl, by decide⟩

/-- C10 amended: the computed folder name is never the empty string (the
separator and bracket literals survive trimming), and whenever the rendered
metadata contains no path separator — and root and filename are plain
segments — the destination is exactly destRoot/folder/filename, strictly
inside the per-set subfolder; metadata smuggling in separators and dot-dot
segments can escape the root, as the counterexample shows. -/
theorem C10_containment :
    (∀ r : SetRow, folderNameOf r ≠ "") ∧
    ∀ (r : SetRow) (destRoot filename : String), '/' ∉ (folderTemplate r).data →
      CleanSeg destRoot → CleanSeg filename →
      pjoin [destRoot, folderNameOf r, filename] =
        destRoot ++ "/" ++ folderNameOf r ++ "/" ++ filename := by
  constructor
  · exact folderNameOf_ne_empty
  · intro r destRoot filename hsep hroot hfile
    exact pjoin3_clean hroot (folderNameOf_sepFree hsep).2 hfile

/-- C10 witness: nonemptiness and containment at a concrete row. -/
theorem C10_containment_witness :
    folderNameOf exRow2 ≠ "" ∧
    pjoin ["Songs", folderNameOf exRow2, "bg.jpg"] =
      "Songs" ++ "/" ++ folderNameOf exRow2 ++ "/" ++ "bg.jpg" :=
  ⟨C10_containment.1 exRow2,
    C10_containment.2 exRow2 "Songs" "bg.jpg" (by decide) (by decide) (by decide)⟩

end Unlazer
